import Mathlib

/-!
Shallow embedding of the Tansea availability service (`src/index.js`, the
v2.5 revision, which is the most feature-complete variant in the file and
the one the claims cite by line number).

Dates are modelled at whole-day granularity as `Int` counts of days since
1970-01-01 (the JS `Date` values in the code are always day-aligned: every
date flowing through the resolver passes through `iso(...)`, which
truncates to the calendar day).  Under this model the JS helpers `toTime`
and `iso` are the identity, JS `getDay()` is `weekday`, `setDate(+n)` is
`+ n`, and `new Date(y, monthIdx, 1)` is `jsMakeDate y monthIdx 1`.

External collaborators are parameters, exactly as the spec scopes them:
the booking list (iCal feed) and the price table are passed in, and the
`chrono-node` natural-language extractor is an oracle argument
`r : Option ParsedResult` standing for `chrono.parse(trimmed)[0]`
(`.start.date()` and, when present, `.end.date()`, both day-truncated).
-/

namespace Tansea

/-! ## Calendar arithmetic -/

/-- JS `Date.prototype.getDay`: 0 = Sunday … 6 = Saturday.
1970-01-01 (day 0) was a Thursday, hence the offset 4. -/
def weekday (d : Int) : Int := (d + 4) % 7

/-- Days since 1970-01-01 of the civil date `y-m-d` (month `m` is 1-based),
by the standard Gregorian era decomposition.  Lean's `Int` division is
Euclidean — floor division for the positive divisors used here — so the
era needs no truncation compensation. -/
def daysFromCivil (y m d : Int) : Int :=
  let y' := if m ≤ 2 then y - 1 else y
  let era := y' / 400
  let yoe := y' - era * 400
  let doy := (153 * (if 2 < m then m - 3 else m + 9) + 2) / 5 + d - 1
  let doe := yoe * 365 + yoe / 4 - yoe / 100 + doy
  era * 146097 + doe - 719468

/-- Inverse of `daysFromCivil`: the civil triple `(year, month, day)`
(month 1-based) of a day count. -/
def civilFromDays (z0 : Int) : Int × Int × Int :=
  let z := z0 + 719468
  let era := z / 146097
  let doe := z - era * 146097
  let yoe := (doe - doe / 1460 + doe / 36524 - doe / 146096) / 365
  let y := yoe + era * 400
  let doy := doe - (365 * yoe + yoe / 4 - yoe / 100)
  let mp := (5 * doy + 2) / 153
  let d := doy - (153 * mp + 2) / 5 + 1
  let m := if mp < 10 then mp + 3 else mp - 9
  (if m ≤ 2 then y + 1 else y, m, d)

/-- JS `Date.prototype.getFullYear` in the day model. -/
def getFullYear (d : Int) : Int := (civilFromDays d).1

/-- JS `Date.prototype.getMonth` (0-based month) in the day model. -/
def getMonth (d : Int) : Int := (civilFromDays d).2.1 - 1

/-- JS `new Date(y, monthIdx, day)` with 0-based `monthIdx` and JS month
rollover (`monthIdx = 12` is January of `y + 1`). -/
def jsMakeDate (y monthIdx day : Int) : Int :=
  daysFromCivil (y + monthIdx / 12) (monthIdx % 12 + 1) day

/-! ## Data model -/

/-- One busy block from the iCal feed (`loadBookings`), half-open
`[start, stop)`. The source field name is `end`, a Lean keyword. -/
structure Booking where
  start : Int
  stop : Int
deriving DecidableEq, Repr

/-- One `prices.json` band, half-open `[start, stop)` (source name `end`). -/
structure PriceBand where
  start : Int
  stop : Int
  price : Int
deriving DecidableEq, Repr

/-- The record built by `getWeekInfo` (source field name `end` ↦ `stop`);
`price = none` models JS `null`. -/
structure Week where
  start : Int
  stop : Int
  booked : Bool
  price : Option Int
deriving DecidableEq, Repr

/-! ## Pricing and week resolution (`src/index.js` lines 51–153) -/

/-- `getPriceForDate` (lines 51–59): first band with
`start ≤ t < end`, else `null`. -/
def getPriceForDate (dateStr : Int) : List PriceBand → Option Int
  | [] => none
  | p :: ps =>
    if p.start ≤ dateStr ∧ dateStr < p.stop then some p.price
    else getPriceForDate dateStr ps

/-- `snapToSaturday` (lines 62–68): step back `(getDay() + 1) % 7` days.
`weekday` is in `[0, 6]`, so the JS truncating `%` agrees with `Int` `%`. -/
def snapToSaturday (dateStr : Int) : Int :=
  dateStr - (weekday dateStr + 1) % 7

/-- `isBookedDate` (lines 87–90): inside any booking, half-open. -/
def isBookedDate (dateStr : Int) (bookings : List Booking) : Bool :=
  bookings.any fun b => decide (b.start ≤ dateStr) && decide (dateStr < b.stop)

/-- The day-by-day `while (cur < end)` scan of `isBookedRange`, with the
iteration count made explicit (the loop advances one day per step, so it
runs exactly `(end - start).toNat` times). -/
def bookedScan (bookings : List Booking) : Int → Nat → Bool
  | _, 0 => false
  | cur, n + 1 => isBookedDate cur bookings || bookedScan bookings (cur + 1) n

/-- `isBookedRange` (lines 93–102). -/
def isBookedRange (startStr endStr : Int) (bookings : List Booking) : Bool :=
  bookedScan bookings startStr (endStr - startStr).toNat

/-- The loop guard of both week-searching loops:
`!info.booked && info.price !== null`. -/
def weekOk (w : Week) : Bool := !w.booked && w.price.isSome

/-- `getWeekInfo` (lines 105–119): the Sat–Sat week record for a start day. -/
def getWeekInfo (satStr : Int) (bookings : List Booking)
    (prices : List PriceBand) : Week :=
  { start := satStr
    stop := satStr + 7
    booked := isBookedRange satStr (satStr + 7) bookings
    price := getPriceForDate satStr prices }

/-- The `for (let i = 0; i < maxWeeksLookahead; i++)` loop of
`findNextAvailableWeek`, counting remaining iterations. -/
def findNextAvailableWeekAux (bookings : List Booking)
    (prices : List PriceBand) : Int → Nat → Option Week
  | _, 0 => none
  | d, n + 1 =>
    if weekOk (getWeekInfo d bookings prices) then
      some (getWeekInfo d bookings prices)
    else findNextAvailableWeekAux bookings prices (d + 7) n

/-- `findNextAvailableWeek` (lines 122–132); every call site uses the
default `maxWeeksLookahead = 8`, inlined here. -/
def findNextAvailableWeek (dateStr : Int) (bookings : List Booking)
    (prices : List PriceBand) : Option Week :=
  findNextAvailableWeekAux bookings prices (snapToSaturday dateStr) 8

/-- The Saturdays visited by the `while (d < end)` walk of
`findAvailableWeeksBetween`: the loop advances 7 days per step, so
`(end - d).toNat` steps of fuel always cover every iteration. -/
def satListAux (endStr : Int) : Int → Nat → List Int
  | _, 0 => []
  | d, n + 1 => if d < endStr then d :: satListAux endStr (d + 7) n else []

/-- The walked Sat–Sat week starts of `findAvailableWeeksBetween s e`. -/
def satsBetween (startStr endStr : Int) : List Int :=
  satListAux endStr (snapToSaturday startStr)
    (endStr - snapToSaturday startStr).toNat

/-- The `while (d < end)` loop body of `findAvailableWeeksBetween`. -/
def findAvailableWeeksBetweenAux (endStr : Int) (bookings : List Booking)
    (prices : List PriceBand) : Int → Nat → List Week
  | _, 0 => []
  | d, n + 1 =>
    if d < endStr then
      (if weekOk (getWeekInfo d bookings prices) then
        [getWeekInfo d bookings prices] else []) ++
        findAvailableWeeksBetweenAux endStr bookings prices (d + 7) n
    else []

/-- `findAvailableWeeksBetween` (lines 136–153): snap the start to its
Saturday, then collect every non-booked, priced week before `endStr`. -/
def findAvailableWeeksBetween (startStr endStr : Int)
    (bookings : List Booking) (prices : List PriceBand) : List Week :=
  findAvailableWeeksBetweenAux endStr bookings prices
    (snapToSaturday startStr) (endStr - snapToSaturday startStr).toNat

/-! ## Text scanning — the regex tests of `interpretQuery` (lines 165–326)

JS regexes over the lowercased query are modelled as explicit left-to-right
scanners: `\w` is `[A-Za-z0-9_]`, `\b` is a transition between a word and a
non-word character (or a string edge), `.test` is existence of a match and
`.match` is the leftmost match (alternatives tried in order at each
position). -/

/-- JS `\w`. -/
def isWordChar (c : Char) : Bool := c.isAlphanum || c == '_'

/-- `String.prototype.trim` at ASCII granularity. -/
def jsTrim (s : List Char) : List Char :=
  ((s.dropWhile Char.isWhitespace).reverse.dropWhile Char.isWhitespace).reverse

/-- `String.prototype.toLowerCase` at ASCII granularity. -/
def jsLower (s : List Char) : List Char := s.map Char.toLower

/-- A literal `w` whose first and last characters are word characters
matches at the head of `s`, with a `\b` boundary after it. -/
def wordAt (w s : List Char) : Bool :=
  w.isPrefixOf s &&
    (match s.drop w.length with
     | [] => true
     | c :: _ => !isWordChar c)

/-- A `\b` boundary before a word character, given the previous character. -/
def boundaryOk : Option Char → Bool
  | none => true
  | some c => !isWordChar c

/-- `/\b<w>\b/.test(s)` for a literal `w` with word characters at both
ends (also covers multi-word literals such as `"next weekend"`, whose
inner space needs no boundary). -/
def containsWordBAux (w : List Char) : Option Char → List Char → Bool
  | _, [] => false
  | prev, c :: rest =>
    (boundaryOk prev && wordAt w (c :: rest)) || containsWordBAux w (some c) rest

def containsWordB (w s : List Char) : Bool := containsWordBAux w none s

/-- Existence of a match of `f` at some position of the string. -/
def scanTest (f : List Char → Bool) : List Char → Bool
  | [] => f []
  | c :: rest => f (c :: rest) || scanTest f rest

/-- Plain substring test (a regex alternative without `\b`). -/
def containsSub (w s : List Char) : Bool := scanTest (w.isPrefixOf ·) s

/-- The five seasons of `/\b(spring|summer|autumn|fall|winter)\b/`. -/
inductive Season where
  | spring | summer | autumn | fall | winter
deriving DecidableEq, Repr

def seasonWords : List (List Char × Season) :=
  [("spring".data, .spring), ("summer".data, .summer),
   ("autumn".data, .autumn), ("fall".data, .fall), ("winter".data, .winter)]

/-- `lower.match(/\b(spring|summer|autumn|fall|winter)\b/)` (line 180):
leftmost match, alternatives in order at each position. -/
def seasonMatchAux : Option Char → List Char → Option Season
  | _, [] => none
  | prev, c :: rest =>
    match
      (if boundaryOk prev then
        seasonWords.findSome? fun p =>
          if wordAt p.1 (c :: rest) then some p.2 else none
      else none) with
    | some s => some s
    | none => seasonMatchAux (some c) rest

def seasonMatch (s : List Char) : Option Season := seasonMatchAux none s

/-- The four-character body of `\b(20\d{2})\b` at the head of `s`,
with its trailing boundary. -/
def yearAt : List Char → Option Int
  | '2' :: '0' :: c :: d :: rest =>
    if c.isDigit && d.isDigit &&
        (match rest with | [] => true | e :: _ => !isWordChar e) then
      some (2000 + 10 * ((c.toNat : Int) - 48) + ((d.toNat : Int) - 48))
    else none
  | _ => none

/-- `lower.match(/\b(20\d{2})\b/)` (line 187), as the parsed year. -/
def yearMatchAux : Option Char → List Char → Option Int
  | _, [] => none
  | prev, c :: rest =>
    match (if boundaryOk prev then yearAt (c :: rest) else none) with
    | some y => some y
    | none => yearMatchAux (some c) rest

def yearMatch (s : List Char) : Option Int := yearMatchAux none s

def monthOnlyWords : List (List Char) :=
  ["anything".data, "any".data, "sometime".data, "somewhere".data, "in".data]

/-- `\s+[a-z]+` at the head of `s`: at least one whitespace character and,
after the whitespace run, an ASCII lowercase letter (by greedy matching
with backtracking this is exactly when the regex tail matches). -/
def wsThenLower : List Char → Bool
  | [] => false
  | c :: rest =>
    c.isWhitespace &&
      (match rest.dropWhile Char.isWhitespace with
       | [] => false
       | d :: _ => decide ('a' ≤ d) && decide (d ≤ 'z'))

/-- `(anything|any|sometime|somewhere|in)\s+[a-z]+` at the head of `s`. -/
def monthOnlyAt (s : List Char) : Bool :=
  monthOnlyWords.any fun w => w.isPrefixOf s && wsThenLower (s.drop w.length)

/-- `mentionsMonthOnly` (lines 286–288). -/
def mentionsMonthOnly (lower : List Char) : Bool :=
  scanTest monthOnlyAt lower ||
    (containsSub "throughout".data lower || containsSub "all month".data lower)

/-- `mentionsWeek` (lines 290–291). -/
def mentionsWeek (lower : List Char) : Bool :=
  containsSub "next week".data lower || containsSub "that week".data lower ||
    containsSub "for a week".data lower || containsSub "week in".data lower

/-! ## Query interpretation (lines 165–326) -/

/-- The first `chrono.parse(trimmed, new Date(), {forwardDate: true})`
result: a start date and an optional end date (both day-truncated, as every
use goes through `iso(...)`).  `chrono-node` is an external collaborator,
so this value is an oracle argument of `interpretQuery`.  The source field
name `end` is a Lean keyword, rendered `stop`. -/
structure ParsedResult where
  start : Int
  stop : Option Int
deriving DecidableEq, Repr

/-- `/\bweekend of\b|\bweekend around\b|\bweekend starting\b/` (line 246). -/
def weekendOfPhrase (lower : List Char) : Bool :=
  containsWordB "weekend of".data lower ||
    containsWordB "weekend around".data lower ||
    containsWordB "weekend starting".data lower

/-- The `baseDate` selection of the weekend branch (lines 241–256). -/
def weekendBase (lower : List Char) (r : Option ParsedResult) (now : Int) :
    Int :=
  if weekendOfPhrase lower && r.isSome then
    (r.map ParsedResult.start).getD now
  else if containsWordB "next weekend".data lower then now + 7
  else if containsWordB "this weekend".data lower then now
  else now

/-- Lines 258–261: move forward to the Saturday of that weekend
(`(6 - getDay() + 7) % 7` days ahead; the dividend is in `[1, 13]`, so the
JS truncating `%` agrees with `Int` `%`). -/
def nextSatForward (d : Int) : Int := d + (6 - weekday d + 7) % 7

/-- The season-branch year resolution (lines 185–197). -/
def seasonYear (lower : List Char) (r : Option ParsedResult) (now : Int) :
    Int :=
  match yearMatch lower with
  | some y => y
  | none =>
    match r with
    | some pr => getFullYear pr.start
    | none => getFullYear now + (if containsWordB "next".data lower then 1 else 0)

/-- The `switch (season)` of lines 202–226 (meteorological ranges built
with `new Date(year, monthIdx, 1)`). -/
def seasonRange (s : Season) (year : Int) : Int × Int :=
  match s with
  | .spring => (jsMakeDate year 2 1, jsMakeDate year 5 1)
  | .summer => (jsMakeDate year 5 1, jsMakeDate year 8 1)
  | .autumn => (jsMakeDate year 8 1, jsMakeDate year 11 1)
  | .fall => (jsMakeDate year 8 1, jsMakeDate year 11 1)
  | .winter => (jsMakeDate year 11 1, jsMakeDate (year + 1) 2 1)

/-- The query intents produced by `interpretQuery`; `vagueRange` carries
the `label` and, for the season branch, the matched `season` field. -/
inductive Intent where
  | invalid
  | single (date : Int)
  | range (start stop : Int)
  | vagueRange (start stop : Int) (label : String) (season : Option Season)
deriving DecidableEq, Repr

/-- `interpretQuery` (lines 165–326).  The leading `!query` falsiness test
is the `isEmpty` guard (non-string bodies are outside the model); the
`switch` default `return {kind: "invalid"}` of line 225 is unreachable
because `Season` is exhaustive. -/
def interpretQuery (query : String) (r : Option ParsedResult) (now : Int) :
    Intent :=
  if query.data.isEmpty then .invalid
  else
    let lower := jsLower (jsTrim query.data)
    match seasonMatch lower with
    | some season =>
      let rng := seasonRange season (seasonYear lower r now)
      .vagueRange rng.1 rng.2 "season" (some season)
    | none =>
      if containsWordB "weekend".data lower then
        .single (nextSatForward (weekendBase lower r now))
      else
        match r with
        | none => .invalid
        | some pr =>
          match pr.stop with
          | some e => .range pr.start e
          | none =>
            if mentionsMonthOnly lower then
              .vagueRange (jsMakeDate (getFullYear pr.start) (getMonth pr.start) 1)
                (jsMakeDate (getFullYear pr.start) (getMonth pr.start + 1) 1)
                "month" none
            else if mentionsWeek lower then
              .vagueRange pr.start (pr.start + 7) "week" none
            else .single pr.start

/-! ## Response composition and the `/check` handler (lines 39–48, 337–511) -/

def weekdayNames : List String :=
  ["Sun", "Mon", "Tue", "Wed", "Thu", "Fri", "Sat"]

def monthNames : List String :=
  ["Jan", "Feb", "Mar", "Apr", "May", "Jun",
   "Jul", "Aug", "Sep", "Oct", "Nov", "Dec"]

/-- `String(d.getDate()).padStart(2, "0")`. -/
def pad2 (n : Int) : String := if n < 10 then "0" ++ toString n else toString n

/-- `formatDateUK` (lines 39–48): "Sat, 27 Jun 2026". -/
def formatDateUK (d : Int) : String :=
  let c := civilFromDays d
  (weekdayNames.getD (weekday d).toNat "") ++ ", " ++ pad2 c.2.2 ++ " " ++
    (monthNames.getD (c.2.1 - 1).toNat "") ++ " " ++ toString c.1

/-- `price !== null ? around £(price) : "available"` (several branches). -/
def priceText (p : Option Int) : String :=
  match p with
  | some v => "around £" ++ toString v
  | none => "available"

/-- One entry of the vague-range preview (lines 480–489); the JS
truthiness test `w.price ?` hides a price of `0`. -/
def summaryItem (w : Week) : String :=
  formatDateUK w.start ++ " → " ++ formatDateUK w.stop ++
    (match w.price with
     | some p => if p == 0 then "" else " (£" ++ toString p ++ ")"
     | none => "")

/-- The guidance message of the unparseable-query branch (lines 350–354). -/
def invalidGuidance : String :=
  "Sorry – I couldn’t quite read those dates. Try something like “10–17 July 2026”, or tap “Speak to a Real Person”."

/-- The 400 body for a body with neither `query` nor `date` (line 345). -/
def missingBodyMsg : String := "Missing \x27query\x27 or \x27date\x27 in body"

def singleNoneMsg : String :=
  "I’ve checked the calendar and couldn’t find an available Sat–Sat week around those dates. Tap “Speak to a Real Person” and we’ll double-check for you."

def vagueEmptyMsg : String :=
  "I’ve checked that period and couldn’t see any clear Sat–Sat availability. Try another month or tap “Speak to a Real Person” and we’ll check manually."

/-- The JSON body shapes `/check` can return; a JSON key the source omits
in some branch is an `Option` set to `none` there. -/
inductive RespBody where
  | errorBody (error : String)
  | invalidBody (message : String)
  | singleBody (query : String) (snappedWeek : Option Week) (message : String)
  | rangeBody (query : String) (requestedRange : Int × Int) (snappedWeek : Week)
      (altWeek : Option Week) (message : String)
  | vagueBody (query : String) (range : Int × Int) (availableWeeks : List Week)
      (message : String)
deriving DecidableEq, Repr

/-- A `/check` HTTP response; `res.json(...)` carries status 200. -/
structure HResponse where
  status : Nat
  body : RespBody
deriving DecidableEq, Repr

/-- JS `query || date` over the two optional body fields, where both a
missing field and an empty string are falsy. -/
def falsyNorm (x : Option String) : Option String :=
  match x with
  | some s => if s.isEmpty then none else some s
  | none => none

def jsOrText (query date : Option String) : Option String :=
  match falsyNorm query with
  | some s => some s
  | none => falsyNorm date

/-- The `/check` handler (lines 337–511).  `loadBookings` is an external
collaborator, so the booking list is a parameter; the `catch` branch
(status 500, a collaborator throw) cannot occur in this pure model, and
the line 504 fallback is unreachable because `Intent` is exhaustive. -/
def checkHandler (query date : Option String) (r : Option ParsedResult)
    (now : Int) (bookings : List Booking) (prices : List PriceBand) :
    HResponse :=
  match jsOrText query date with
  | none => ⟨400, .errorBody missingBodyMsg⟩
  | some userText =>
    match interpretQuery userText r now with
    | .invalid => ⟨200, .invalidBody invalidGuidance⟩
    | .single chosen =>
      match findNextAvailableWeek chosen bookings prices with
      | none => ⟨200, .singleBody userText none singleNoneMsg⟩
      | some targetWeek =>
        let includesChosen :=
          decide (targetWeek.start = snapToSaturday chosen) && !targetWeek.booked
        let niceStart := formatDateUK targetWeek.start
        let niceEnd := formatDateUK targetWeek.stop
        let msg :=
          if includesChosen then
            "Good news — the Sat–Sat stay from " ++ niceStart ++ " to " ++
              niceEnd ++ " is " ++ priceText targetWeek.price ++
              ". Short stays are available on request."
          else
            "That exact week looks busy, but the next available Sat–Sat stay is " ++
              niceStart ++ " to " ++ niceEnd ++ " at " ++
              priceText targetWeek.price ++
              ". Short stays are available on request."
        ⟨200, .singleBody userText (some targetWeek) msg⟩
    | .range s e =>
      let weekInfo := getWeekInfo (snapToSaturday s) bookings prices
      if weekInfo.booked then
        match findNextAvailableWeek s bookings prices with
        | some alt =>
          ⟨200, .rangeBody userText (s, e) weekInfo (some alt)
            ("That range includes booked dates. The next available Sat–Sat week is " ++
              formatDateUK alt.start ++ " to " ++ formatDateUK alt.stop ++
              " at " ++ priceText alt.price ++
              ". Short stays are available on request.")⟩
        | none =>
          ⟨200, .rangeBody userText (s, e) weekInfo none
            "That range includes booked dates and I couldn’t find a nearby free Sat–Sat week. Tap “Speak to a Real Person” and we’ll help you look."⟩
      else
        ⟨200, .rangeBody userText (s, e) weekInfo none
          ("Good news — the Sat–Sat stay from " ++ formatDateUK weekInfo.start ++
            " to " ++ formatDateUK weekInfo.stop ++ " is " ++
            priceText weekInfo.price ++
            ". Short stays are available on request.")⟩
    | .vagueRange s e _label _season =>
      match findAvailableWeeksBetween s e bookings prices with
      | [] => ⟨200, .vagueBody userText (s, e) [] vagueEmptyMsg⟩
      | first :: restWeeks =>
        let weeks := first :: restWeeks
        let summaryList := String.intercalate "; " ((weeks.take 3).map summaryItem)
        ⟨200, .vagueBody userText (s, e) weeks
          ("Good news — there are Sat–Sat weeks available in that period. For example, " ++
            formatDateUK first.start ++ " to " ++ formatDateUK first.stop ++
            " at " ++ priceText first.price ++ ". A few options include: " ++
            summaryList ++ ". Short stays are often possible on request.")⟩

/-! ## Helper lemmas -/

theorem weekday_snap (d : Int) : weekday (snapToSaturday d) = 6 := by
  simp only [weekday, snapToSaturday]
  omega

theorem weekday_add_seven (d : Int) : weekday (d + 7) = weekday d := by
  simp only [weekday]
  omega

/-- The day-by-day scan hits a booked day iff one of the `n` scanned days
is booked. -/
theorem bookedScan_iff (bs : List Booking) :
    ∀ (n : Nat) (s : Int), bookedScan bs s n = true ↔
      ∃ k : Nat, k < n ∧ isBookedDate (s + k) bs = true := by
  intro n
  induction n with
  | zero =>
    intro s
    simp [bookedScan]
  | succ n ih =>
    intro s
    rw [bookedScan, Bool.or_eq_true, ih (s + 1)]
    constructor
    · rintro (h | ⟨k, hk, h⟩)
      · exact ⟨0, Nat.succ_pos n, by simpa using h⟩
      · refine ⟨k + 1, by omega, ?_⟩
        have hx : s + 1 + (k : Int) = s + ((k : Int) + 1) := by ring
        rw [hx] at h
        simpa using h
    · rintro ⟨k, hk, h⟩
      match k with
      | 0 => exact Or.inl (by simpa using h)
      | k + 1 =>
        refine Or.inr ⟨k, by omega, ?_⟩
        have hx : s + 1 + (k : Int) = s + ((k : Int) + 1) := by ring
        rw [hx]
        simpa using h

/-- `isBookedRange` as an existence statement over the half-open range. -/
theorem isBookedRange_iff_exists (s e : Int) (bs : List Booking) :
    isBookedRange s e bs = true ↔
      ∃ d : Int, s ≤ d ∧ d < e ∧ isBookedDate d bs = true := by
  rw [isBookedRange, bookedScan_iff]
  constructor
  · rintro ⟨k, hk, h⟩
    exact ⟨s + k, by omega, by omega, h⟩
  · rintro ⟨d, h1, h2, h⟩
    refine ⟨(d - s).toNat, by omega, ?_⟩
    have hx : s + ((d - s).toNat : Int) = d := by omega
    rwa [hx]

/-! ## Claim C6 -/

/-- C6: `snapToSaturday d` always lands on a Saturday (`weekday = 6`), is
at most `d`, and lies less than 7 days before `d` — with the 7-periodicity
of `weekday` this makes it the latest Saturday at or before `d`, computed
as `d - (weekday d + 1) % 7`; consequently the function is idempotent. -/
theorem snapToSaturday_spec (d : Int) :
    snapToSaturday d = d - (weekday d + 1) % 7 ∧
      weekday (snapToSaturday d) = 6 ∧
      snapToSaturday d ≤ d ∧ d - snapToSaturday d < 7 ∧
      snapToSaturday (snapToSaturday d) = snapToSaturday d := by
  refine ⟨rfl, ?_, ?_, ?_, ?_⟩ <;>
    · simp only [weekday, snapToSaturday]
      omega

/-! ## Claim C7 -/

/-- C7: `isBookedRange s e bookings` is true iff some day in the half-open
range `[s, e)` is booked according to `isBookedDate`; hence it is monotone
in the range — widening `[s, e)` to `[s', e')` can only add bookedness. -/
theorem isBookedRange_spec (s e : Int) (bs : List Booking) :
    (isBookedRange s e bs = true ↔
      ∃ d : Int, s ≤ d ∧ d < e ∧ isBookedDate d bs = true) ∧
    ∀ s' e' : Int, s' ≤ s → e ≤ e' →
      isBookedRange s e bs = true → isBookedRange s' e' bs = true := by
  refine ⟨isBookedRange_iff_exists s e bs, ?_⟩
  intro s' e' hs he h
  rcases (isBookedRange_iff_exists s e bs).mp h with ⟨d, h1, h2, hb⟩
  exact (isBookedRange_iff_exists s' e' bs).mpr ⟨d, by omega, by omega, hb⟩

/-- Witness for C7 at a concrete input: widening `[0, 2)` to `[-1, 3)`
keeps the booked verdict, and the iff yields a concrete booked day. -/
theorem isBookedRange_spec_witness :
    isBookedRange (-1) 3 [⟨1, 2⟩] = true ∧
      ∃ d : Int, 0 ≤ d ∧ d < 2 ∧ isBookedDate d [⟨1, 2⟩] = true :=
  ⟨(isBookedRange_spec 0 2 [⟨1, 2⟩]).2 (-1) 3 (by decide) (by decide)
      (by decide),
   (isBookedRange_spec 0 2 [⟨1, 2⟩]).1.mp (by decide)⟩

/-! ## Claim C8 -/

/-- C8: the `Week` record built by `getWeekInfo` always has
`end = start + 7` days exactly. -/
theorem getWeekInfo_end_spec (satStr : Int) (bs : List Booking)
    (ps : List PriceBand) :
    (getWeekInfo satStr bs ps).stop = (getWeekInfo satStr bs ps).start + 7 :=
  rfl

/-! ## Loop lemmas for the week-searching functions -/

/-- A week returned by the lookahead loop passed its own guard. -/
theorem findNextAux_some (bs : List Booking) (ps : List PriceBand) :
    ∀ (n : Nat) (d : Int) (w : Week),
      findNextAvailableWeekAux bs ps d n = some w → weekOk w = true := by
  intro n
  induction n with
  | zero =>
    intro d w h
    simp [findNextAvailableWeekAux] at h
  | succ n ih =>
    intro d w h
    rw [findNextAvailableWeekAux] at h
    split at h
    · cases h
      assumption
    · exact ih (d + 7) w h

/-- If the lookahead loop exhausts, every visited week failed the guard. -/
theorem findNextAux_none (bs : List Booking) (ps : List PriceBand) :
    ∀ (n : Nat) (d : Int), findNextAvailableWeekAux bs ps d n = none →
      ∀ i : Nat, i < n → weekOk (getWeekInfo (d + 7 * i) bs ps) = false := by
  intro n
  induction n with
  | zero =>
    intro d _ i hi
    omega
  | succ n ih =>
    intro d h i hi
    rw [findNextAvailableWeekAux] at h
    split at h
    · cases h
    · rename_i hguard
      match i with
      | 0 =>
        simpa using Bool.not_eq_true _ ▸ Bool.of_not_eq_true hguard
      | j + 1 =>
        have hx : d + 7 * ((j : Int) + 1) = d + 7 + 7 * (j : Int) := by ring
        have := ih (d + 7) h j (by omega)
        rw [show ((j + 1 : Nat) : Int) = (j : Int) + 1 by push_cast; ring, hx]
        exact this

/-- Weeks found by the lookahead keep the Saturday alignment of its
starting day. -/
theorem findNextAux_weekday (bs : List Booking) (ps : List PriceBand) :
    ∀ (n : Nat) (d : Int), weekday d = 6 →
      ∀ w, findNextAvailableWeekAux bs ps d n = some w →
        weekday w.start = 6 := by
  intro n
  induction n with
  | zero =>
    intro d _ w h
    simp [findNextAvailableWeekAux] at h
  | succ n ih =>
    intro d hd w h
    rw [findNextAvailableWeekAux] at h
    split at h
    · cases h
      exact hd
    · exact ih (d + 7) (by rw [weekday_add_seven]; exact hd) w h

/-- Every walked Saturday is at or after the walk's starting day. -/
theorem satListAux_lb (e : Int) :
    ∀ (n : Nat) (d : Int) (x : Int), x ∈ satListAux e d n → d ≤ x := by
  intro n
  induction n with
  | zero =>
    intro d x h
    simp [satListAux] at h
  | succ n ih =>
    intro d x h
    rw [satListAux] at h
    split at h
    · rcases List.mem_cons.mp h with h | h
      · omega
      · have := ih (d + 7) x h
        omega
    · simp at h

/-- The walked Saturdays are strictly increasing. -/
theorem satListAux_pairwise (e : Int) :
    ∀ (n : Nat) (d : Int), List.Pairwise (· < ·) (satListAux e d n) := by
  intro n
  induction n with
  | zero =>
    intro d
    simp [satListAux]
  | succ n ih =>
    intro d
    rw [satListAux]
    split
    · exact List.pairwise_cons.mpr
        ⟨fun x hx => by have := satListAux_lb e n (d + 7) x hx; omega, ih (d + 7)⟩
    · simp

/-- The walked Saturdays keep the weekday of the starting day. -/
theorem satListAux_weekday (e : Int) :
    ∀ (n : Nat) (d : Int), weekday d = 6 →
      ∀ x ∈ satListAux e d n, weekday x = 6 := by
  intro n
  induction n with
  | zero =>
    intro d _ x h
    simp [satListAux] at h
  | succ n ih =>
    intro d hd x h
    rw [satListAux] at h
    split at h
    · rcases List.mem_cons.mp h with h | h
      · rw [h]
        exact hd
      · exact ih (d + 7) (by rw [weekday_add_seven]; exact hd) x h
    · simp at h

/-- The collecting loop is the guard-filter of the week records of the
walked Saturdays. -/
theorem findAvailableWeeksBetweenAux_eq (e : Int) (bs : List Booking)
    (ps : List PriceBand) :
    ∀ (n : Nat) (d : Int),
      findAvailableWeeksBetweenAux e bs ps d n =
        ((satListAux e d n).map fun x => getWeekInfo x bs ps).filter weekOk := by
  intro n
  induction n with
  | zero =>
    intro d
    simp [findAvailableWeeksBetweenAux, satListAux]
  | succ n ih =>
    intro d
    rw [findAvailableWeeksBetweenAux, satListAux]
    by_cases hd : d < e
    · rw [if_pos hd, if_pos hd, ih (d + 7), List.map_cons, List.filter_cons]
      by_cases hw : weekOk (getWeekInfo d bs ps) = true
      · simp [hw]
      · rw [Bool.not_eq_true] at hw
        simp [hw]
    · rw [if_neg hd, if_neg hd]
      simp

/-- A generic list fact: `all` after `map` tests the composite. -/
theorem all_map_eq {α β : Type} (f : α → β) (p : β → Bool) :
    ∀ l : List α, (l.map f).all p = l.all fun x => p (f x) := by
  intro l
  induction l with
  | nil => rfl
  | cons a l ih => simp [ih]

/-- A generic list fact: a filtered list is empty exactly when every
element fails the filter. -/
theorem filter_isEmpty_eq_all {α : Type} (p : α → Bool) :
    ∀ l : List α, (l.filter p).isEmpty = l.all fun x => !p x := by
  intro l
  induction l with
  | nil => rfl
  | cons a l ih =>
    rw [List.filter_cons, List.all_cons]
    by_cases hp : p a = true
    · simp [hp]
    · rw [Bool.not_eq_true] at hp
      simp [hp, ih]

/-! ## Claim C1 -/

/-- C1: `findNextAvailableWeek` never returns a week that is booked or has
a null price; and whenever it returns `null`, every one of the 8
consecutive Sat–Sat weeks starting at `snapToSaturday fromDate` (stepping
7 days at a time) fails the guard `!booked && price ≠ null` (`weekOk`). -/
theorem findNextAvailableWeek_spec (fromDate : Int) (bs : List Booking)
    (ps : List PriceBand) :
    match findNextAvailableWeek fromDate bs ps with
    | some w => w.booked = false ∧ w.price.isSome = true
    | none =>
      ((List.range 8).all fun i =>
        !weekOk (getWeekInfo (snapToSaturday fromDate + 7 * (i : Int)) bs ps)) =
        true := by
  cases h : findNextAvailableWeek fromDate bs ps with
  | some w =>
    have hw := findNextAux_some bs ps 8 (snapToSaturday fromDate) w h
    simp only [weekOk, Bool.and_eq_true, Bool.not_eq_true'] at hw
    exact ⟨hw.1, hw.2⟩
  | none =>
    rw [List.all_eq_true]
    intro i hi
    have := findNextAux_none bs ps 8 (snapToSaturday fromDate) h i
      (List.mem_range.mp hi)
    simp [this]

/-! ## Claim C2 -/

/-- C2: `findAvailableWeeksBetween` returns weeks in strictly increasing
`start` order; every returned week has `booked = false` and a non-null
price; and the result is empty exactly when no Sat–Sat week in the walked
range (the Saturdays `satsBetween s e`) passes the guard. -/
theorem findAvailableWeeksBetween_spec (s e : Int) (bs : List Booking)
    (ps : List PriceBand) :
    List.Pairwise (fun a b => a.start < b.start)
      (findAvailableWeeksBetween s e bs ps) ∧
    ((findAvailableWeeksBetween s e bs ps).all fun w =>
      !w.booked && w.price.isSome) = true ∧
    (findAvailableWeeksBetween s e bs ps).isEmpty =
      ((satsBetween s e).all fun x => !weekOk (getWeekInfo x bs ps)) := by
  rw [findAvailableWeeksBetween, findAvailableWeeksBetweenAux_eq]
  refine ⟨?_, ?_, ?_⟩
  · apply List.Pairwise.filter
    rw [List.pairwise_map]
    have hp := satListAux_pairwise e ((e - snapToSaturday s).toNat)
      (snapToSaturday s)
    exact hp.imp (by intro a b hab; simpa [getWeekInfo] using hab)
  · rw [List.all_eq_true]
    intro w hw
    exact (List.mem_filter.mp hw).2
  · rw [filter_isEmpty_eq_all, all_map_eq]
    rfl

/-! ## Claim C10 -/

/-- C10: every week returned by `findNextAvailableWeek` or
`findAvailableWeeksBetween` starts on a Saturday — both snap their input
with `snapToSaturday` and then step in exact 7-day increments. -/
theorem weeks_start_saturday (fromDate s e : Int) (bs : List Booking)
    (ps : List PriceBand) :
    (match findNextAvailableWeek fromDate bs ps with
     | some w => weekday w.start = 6
     | none => True) ∧
    ((findAvailableWeeksBetween s e bs ps).all fun w =>
      decide (weekday w.start = 6)) = true := by
  constructor
  · cases h : findNextAvailableWeek fromDate bs ps with
    | some w =>
      exact findNextAux_weekday bs ps 8 (snapToSaturday fromDate)
        (weekday_snap fromDate) w h
    | none => trivial
  · rw [List.all_eq_true]
    intro w hw
    rw [findAvailableWeeksBetween, findAvailableWeeksBetweenAux_eq] at hw
    rcases List.mem_filter.mp hw with ⟨hmem, _⟩
    rcases List.mem_map.mp hmem with ⟨x, hx, rfl⟩
    have hwd := satListAux_weekday e _ (snapToSaturday s) (weekday_snap s) x hx
    simpa [getWeekInfo] using hwd

/-! ## Interpreter lemmas -/

/-- Any day of July 2026 (days 20635–20665 since the epoch) has civil
year 2026 and JS `getMonth` 6. -/
theorem civil_july2026 (b : Int) (h1 : 20635 ≤ b) (h2 : b < 20666) :
    getFullYear b = 2026 ∧ getMonth b = 6 := by
  simp only [getFullYear, getMonth, civilFromDays]
  split_ifs <;> omega

/-- Partial evaluation of `interpretQuery` on the literal query
`"anything in July 2026"`: all regex guards are closed, so the call
reduces to the vague-month branch of the oracle's start date. -/
theorem interpret_july (b now : Int) :
    interpretQuery "anything in July 2026" (some ⟨b, none⟩) now =
      .vagueRange (jsMakeDate (getFullYear b) (getMonth b) 1)
        (jsMakeDate (getFullYear b) (getMonth b + 1) 1) "month" none := rfl

/-! ## Claim C3 -/

/-- C3: with no bookings and a single price band covering all of July 2026
at price 1200, the query `"anything in July 2026"` (with the date
extractor returning any start inside July 2026 and no end) is interpreted
as the vague month range `[2026-07-01, 2026-08-01)`, and
`findAvailableWeeksBetween` on that window returns exactly the four
weeks starting 2026-07-04/11/18/25 (days 20638–20659), each priced 1200 —
which are precisely the Saturday starts whose full week fits inside the
window, as the third conjunct states by enumeration. -/
theorem july2026_scenario (b now : Int)
    (hb1 : jsMakeDate 2026 6 1 ≤ b) (hb2 : b < jsMakeDate 2026 7 1) :
    interpretQuery "anything in July 2026" (some ⟨b, none⟩) now =
      .vagueRange (jsMakeDate 2026 6 1) (jsMakeDate 2026 7 1) "month" none ∧
    findAvailableWeeksBetween (jsMakeDate 2026 6 1) (jsMakeDate 2026 7 1) []
        [⟨jsMakeDate 2026 6 1, jsMakeDate 2026 7 1, 1200⟩] =
      [⟨20638, 20645, false, some 1200⟩, ⟨20645, 20652, false, some 1200⟩,
       ⟨20652, 20659, false, some 1200⟩, ⟨20659, 20666, false, some 1200⟩] ∧
    (((List.range 31).map fun i => jsMakeDate 2026 6 1 + (i : Int)).filter
        fun x => decide (weekday x = 6) &&
          decide (x + 7 ≤ jsMakeDate 2026 7 1)) =
      (findAvailableWeeksBetween (jsMakeDate 2026 6 1) (jsMakeDate 2026 7 1) []
        [⟨jsMakeDate 2026 6 1, jsMakeDate 2026 7 1, 1200⟩]).map Week.start := by
  refine ⟨?_, by decide, by decide⟩
  rw [interpret_july]
  have he1 : jsMakeDate 2026 6 1 = (20635 : Int) := by decide
  have he2 : jsMakeDate 2026 7 1 = (20666 : Int) := by decide
  rw [he1] at hb1
  rw [he2] at hb2
  obtain ⟨hy, hm⟩ := civil_july2026 b hb1 hb2
  rw [hy, hm]
  norm_num

/-- Witness for C3 at the concrete oracle start 2026-07-06 (day 20640). -/
theorem july2026_scenario_witness :
    interpretQuery "anything in July 2026" (some ⟨20640, none⟩) 0 =
      .vagueRange (jsMakeDate 2026 6 1) (jsMakeDate 2026 7 1) "month" none :=
  (july2026_scenario 20640 0 (by decide) (by decide)).1

/-! ## Claim C4 -/

/-- C4 counterexample: `"summer weekend"` contains the weekend phrase
`"weekend"`, yet `interpretQuery` returns the season vague range, not a
`Single` — in the source the season recognizer (line 180) runs before the
weekend recognizer (line 240). -/
theorem weekend_season_counterexample :
    containsWordB "weekend".data
        (jsLower (jsTrim ("summer weekend").data)) = true ∧
    interpretQuery "summer weekend" none (daysFromCivil 2026 1 15) =
      .vagueRange (daysFromCivil 2026 6 1) (daysFromCivil 2026 9 1)
        "season" (some .summer) :=
  ⟨by decide, by decide⟩

/-- C4 (amended): for every input text containing the word `"weekend"`
and **no** season keyword, `interpretQuery` returns `Single` with the
Saturday of the relevant week — the weekend base date moved forward to
its Saturday; the counterexample above shows that a season keyword
pre-empts the weekend branch. -/
theorem weekend_no_season_single (q : String) (r : Option ParsedResult)
    (now : Int)
    (hw : containsWordB "weekend".data (jsLower (jsTrim q.data)) = true)
    (hs : seasonMatch (jsLower (jsTrim q.data)) = none) :
    interpretQuery q r now =
      .single (nextSatForward (weekendBase (jsLower (jsTrim q.data)) r now)) ∧
    weekday (nextSatForward (weekendBase (jsLower (jsTrim q.data)) r now)) =
      6 := by
  constructor
  · have hne : q.data.isEmpty = false := by
      cases hq : q.data with
      | nil =>
        rw [hq] at hw
        simp [jsTrim, jsLower, containsWordB, containsWordBAux] at hw
      | cons c l => rfl
    simp [interpretQuery, hne, hs, hw]
  · simp only [nextSatForward, weekday]
    omega

/-- Witness for C4's amended theorem on `"next weekend"` with no extractor
result, from Wednesday 2026-01-14. -/
theorem weekend_no_season_single_witness :
    interpretQuery "next weekend" none (daysFromCivil 2026 1 14) =
      .single (nextSatForward (weekendBase
        (jsLower (jsTrim ("next weekend").data)) none
        (daysFromCivil 2026 1 14))) ∧
    weekday (nextSatForward (weekendBase
      (jsLower (jsTrim ("next weekend").data)) none
      (daysFromCivil 2026 1 14))) = 6 :=
  weekend_no_season_single "next weekend" none (daysFromCivil 2026 1 14)
    (by decide) (by decide)

/-! ## Claim C5 -/

/-- C5: when the text contains a season keyword, the season branch decides
the result even if the date extractor produced a full explicit range — the
result is the fixed meteorological `VagueRange` labelled `"season"`, never
the `ExactRange` the generic branch would build (the `range` constructor
is distinct from `vagueRange`). -/
theorem season_preempts_range (q : String) (r : Option ParsedResult)
    (now : Int) (s : Season)
    (hs : seasonMatch (jsLower (jsTrim q.data)) = some s)
    (_hr : ∃ pr, r = some pr ∧ pr.stop.isSome = true) :
    interpretQuery q r now =
      .vagueRange
        (seasonRange s (seasonYear (jsLower (jsTrim q.data)) r now)).1
        (seasonRange s (seasonYear (jsLower (jsTrim q.data)) r now)).2
        "season" (some s) := by
  have hne : q.data.isEmpty = false := by
    cases hq : q.data with
    | nil =>
      rw [hq] at hs
      simp [jsTrim, jsLower, seasonMatch, seasonMatchAux] at hs
    | cons c l => rfl
  simp [interpretQuery, hne, hs]

/-- Witness for C5: `"summer 10-17 july 2026"` with an explicit extracted
range 2026-07-10 – 2026-07-17 still resolves through the season branch. -/
theorem season_preempts_range_witness :
    interpretQuery "summer 10-17 july 2026" (some ⟨20644, some 20651⟩) 0 =
      .vagueRange
        (seasonRange .summer (seasonYear
          (jsLower (jsTrim ("summer 10-17 july 2026").data))
          (some ⟨20644, some 20651⟩) 0)).1
        (seasonRange .summer (seasonYear
          (jsLower (jsTrim ("summer 10-17 july 2026").data))
          (some ⟨20644, some 20651⟩) 0)).2
        "season" (some .summer) :=
  season_preempts_range "summer 10-17 july 2026" (some ⟨20644, some 20651⟩) 0
    .summer (by decide) ⟨⟨20644, some 20651⟩, rfl, rfl⟩

/-! ## Claim C9 -/

/-- C9 counterexample: the request body `{query: ""}` carries query text
whose interpretation is `invalid`, yet `/check` answers with a 400 client
error — the JS falsiness test of line 342 fires before interpretation, so
the claim fails for the empty query string. -/
theorem check_empty_query_counterexample :
    interpretQuery "" none 0 = .invalid ∧
    checkHandler (some "") none none 0 [] [] =
      ⟨400, .errorBody missingBodyMsg⟩ :=
  ⟨by decide, by decide⟩

/-- C9 (amended): for every request whose effective user text (the JS
`query || date`, both falsy-checked) is present and non-empty, if
`interpretQuery` yields `invalid` the handler returns a *successful*
response — status 200 with mode `invalid` and the guidance message — and
not a client-error status. -/
theorem check_invalid_success (query date : Option String) (q : String)
    (r : Option ParsedResult) (now : Int) (bookings : List Booking)
    (ps : List PriceBand)
    (hq : jsOrText query date = some q)
    (hi : interpretQuery q r now = .invalid) :
    checkHandler query date r now bookings ps =
      ⟨200, .invalidBody invalidGuidance⟩ := by
  simp [checkHandler, hq, hi]

/-- Witness for C9's amended theorem on the unparseable query `"zzzz"`. -/
theorem check_invalid_success_witness :
    checkHandler (some "zzzz") none none 0 [] [] =
      ⟨200, .invalidBody invalidGuidance⟩ :=
  check_invalid_success (some "zzzz") none "zzzz" none 0 [] []
    (by decide) (by decide)

end Tansea
